import Mathlib

/-!
Verification development for `rss2maildir.py`.

Shallow embedding conventions:
* identifier strings are `List Char` (the characters of the Python string);
* calendar dates at day granularity are `Int` (days since a fixed epoch);
  Python `date` subtraction and `timedelta(days = n)` comparison become
  integer subtraction and comparison;
* a feed's cache (a JSON object, i.e. a Python `dict` from identifier to
  date string) is an association list `List (Ident × Int)` whose keys are
  unique and whose order is the dict's insertion order;
* Python exceptions become `Except`/error components that propagate, and
  the external collaborators (network fetch, maildir delivery, file
  system) become oracles in an environment record.
-/

set_option autoImplicit false

abbrev Ident := List Char

abbrev Cache := List (Ident × Int)

/-- The characters of the string literal `https:` (line 241 of the source). -/
def httpsPfx : List Char := ['h', 't', 't', 'p', 's', ':']

/-- The characters of the string literal `http:` (line 242 of the source). -/
def httpPfx : List Char := ['h', 't', 't', 'p', ':']

/-- Python `str.removeprefix`: drop `p` from the front of `s` when it is a
prefix, otherwise return `s` unchanged. -/
def stripPfx (p s : List Char) : List Char :=
  if p.isPrefixOf s then s.drop p.length else s

/-- A feed item as obtained from feedparser: the fields of the source that
the core logic reads. `published`/`updated` are the item's timestamps
truncated to day granularity (`rss_item_datetime(...).date()`); `none`
models an absent field. -/
structure Item where
  id : Option Ident
  link : Option Ident
  description : Option (List Char)
  title : List Char
  published : Option Int
  updated : Option Int
deriving DecidableEq

/-- The canonicalisation of lines 241-242: `id.removeprefix("https:")`
followed by `.removeprefix("http:")`. -/
def canonId (s : List Char) : List Char := stripPfx httpPfx (stripPfx httpsPfx s)

/-- `item_id` (lines 232-246): prefer the explicit `id` field, else the
`link`; strip a leading `https:` then a leading `http:`. When neither
field is present the attribute access raises and the code calls
`sys.exit(20)`, modelled as `.error ()`. -/
def item_id (item : Item) : Except Unit Ident :=
  match item.id with
  | some i => .ok (canonId i)
  | none =>
    match item.link with
    | some l => .ok (canonId l)
    | none => .error ()

/-- The identifier source of an item: the explicit id, or the link when the
id is absent. -/
def srcOf (item : Item) : Option Ident :=
  match item.id with
  | some i => some i
  | none => item.link

/-- `rss_item_datetime(item).date()` (lines 248-258): the published date,
else the updated date, else `datetime.now()` whose `.date()` is `today`. -/
def rss_item_date (today : Int) (item : Item) : Int :=
  match item.published with
  | some d => d
  | none =>
    match item.updated with
    | some d => d
    | none => today

/-- Membership of a key in a cache dict (`new_id not in feed.cache`,
negated). -/
def hasKey (m : Cache) (k : Ident) : Bool :=
  m.any (fun p => decide (p.1 = k))

/-- Lookup of a key in a cache dict. -/
def lookupC : Cache → Ident → Option Int
  | [], _ => none
  | (k, v) :: m, key => if k = key then some v else lookupC m key

/-- Python dict assignment `cache[k] = v`: overwrite in place when the key
is present, otherwise append at the end (dicts preserve insertion order). -/
def dinsert (k : Ident) (v : Int) : Cache → Cache
  | [] => [(k, v)]
  | (k', v') :: m => if k' = k then (k, v) :: m else (k', v') :: dinsert k v m

/-- The test `feed.cache == None or new_id not in feed.cache` (line 278),
as the positive membership test: `feed.cache` is `None` or an absent key
gives `false`. -/
def cacheContains : Option Cache → Ident → Bool
  | none, _ => false
  | some m, k => hasKey m k

/-- The loop body of `extract_new_items` (lines 276-283): left to right,
compute each item's identifier (aborting the run when `item_id` exits),
and keep the item when its identifier is not cached and its date is
within the retention window. -/
def extract_go (dtr : Int) (cache : Option Cache) (today : Int) :
    List Item → Except Unit (List Item)
  | [] => .ok []
  | item :: rest =>
    match item_id item with
    | .error e => .error e
    | .ok new_id =>
      match extract_go dtr cache today rest with
      | .error e => .error e
      | .ok tail =>
        if cacheContains cache new_id then .ok tail
        else if today - rss_item_date today item < dtr then .ok (item :: tail)
        else .ok tail

/-- `extract_new_items` (lines 260-285): an empty fetched list short
circuits to the empty result. -/
def extract_new_items (new_list : List Item) (dtr : Int) (cache : Option Cache)
    (today : Int) : Except Unit (List Item) :=
  if new_list.isEmpty then .ok []
  else extract_go dtr cache today new_list

/-- `expire` (lines 204-215): rebuild the cache dict keeping the entries
whose recorded date is strictly less than `dtr` days before `today`. -/
def expire (cache : Cache) (dtr : Int) (today : Int) : Cache :=
  cache.foldl (fun res ld => if today - ld.2 < dtr then dinsert ld.1 ld.2 res else res) []

/-- Modelled from the spec: `html.unescape` on the subject line is the
Python standard library's HTML-entity decoder, outside this repository;
the spec only requires the subject to be the HTML-entity-decoded title,
so the model decodes the five standard named/numeric entities. -/
def htmlUnescape : List Char → List Char
  | [] => []
  | '&' :: 'a' :: 'm' :: 'p' :: ';' :: rest => '&' :: htmlUnescape rest
  | '&' :: 'l' :: 't' :: ';' :: rest => '<' :: htmlUnescape rest
  | '&' :: 'g' :: 't' :: ';' :: rest => '>' :: htmlUnescape rest
  | '&' :: 'q' :: 'u' :: 'o' :: 't' :: ';' :: rest => '"' :: htmlUnescape rest
  | '&' :: '#' :: '3' :: '9' :: ';' :: rest => '\'' :: htmlUnescape rest
  | c :: rest => c :: htmlUnescape rest

/-- Helper of `stripTags`: the flag records whether the scan is inside an
HTML tag (between `<` and `>`); tag contents are discarded. -/
def stripTagsAux : Bool → List Char → List Char
  | _, [] => []
  | false, '<' :: rest => stripTagsAux true rest
  | false, c :: rest => c :: stripTagsAux false rest
  | true, '>' :: rest => stripTagsAux false rest
  | true, _ :: rest => stripTagsAux true rest

/-- Drop all HTML markup, keeping only the text between tags. -/
def stripTags (s : List Char) : List Char := stripTagsAux false s

/-- Modelled from the spec: the `html2text` collaborator (an external
library) renders a description to plain text; with `ignore_links` and
`ignore_images` set it strips hyperlink and image markup so that the text
contains no residual embedded URLs. With links included the rendering
convention is outside the spec's scope and the markup is kept as is;
no claim exercises that branch. -/
def html2textHandle (ignoreLinks : Bool) (d : List Char) : List Char :=
  if ignoreLinks then stripTags d else d

/-- Python `"\n".join`. -/
def joinNL : List (List Char) → List Char
  | [] => []
  | [t] => t
  | t :: ts => t ++ '\n' :: joinNL ts

/-- The normalized message record: the subject header and body that
`update_maildir` puts into the Maildir message. -/
structure MailMessage where
  subject : List Char
  body : List Char
deriving DecidableEq

/-- The message construction of `update_maildir` (lines 140-180): subject
is the HTML-entity-decoded title; the body joins the rendered description
(link markup suppressed when the feed's `links` flag is false) and the
item's link, when present, with a newline. -/
def update_maildir_msg (links : Bool) (item : Item) : MailMessage :=
  let texts :=
    (match item.description with
     | some d => [html2textHandle (!links) d]
     | none => []) ++
    (match item.link with
     | some l => [l]
     | none => [])
  { subject := htmlUnescape item.title, body := joinNL texts }

/-- The uncaught-exception outcomes of one run of `main`: a cache file
that fails to parse in `load_cache`, the `sys.exit(20)` in `item_id`, and
an exception raised by `update_maildir` (delivery failure). All three
propagate through `main`'s feed loop and abort the whole run. -/
inductive RunErr where
  | cacheLoadErr
  | idExit
  | deliveryErr
deriving DecidableEq

/-- The environment of a run: the current day, and the external
collaborators as oracles — the network fetch (`none` models a download or
parse failure, otherwise the parsed entries and the feed title), delivery
success of `update_maildir`, and success of the file write in
`save_object`. -/
structure Env where
  today : Int
  fetchOf : String → Option (List Item × List Char)
  deliverOk : Item → Bool
  saveOk : String → Bool

/-- The per-feed configuration used by the core (`rss_feed` fields). -/
structure Feed where
  name : String
  days_to_remember : Int
  links : Bool
deriving DecidableEq

/-- The persisted cache files, keyed by feed name: `.error ()` models a
file whose contents fail to parse, `.ok c` a well-formed cache. -/
abbrev Files := List (String × Except Unit Cache)

def lookupF : Files → String → Option (Except Unit Cache)
  | [], _ => none
  | (n, c) :: fsys, key => if n = key then some c else lookupF fsys key

def updateF (n : String) (c : Except Unit Cache) : Files → Files
  | [] => [(n, c)]
  | (n', c') :: fsys => if n' = n then (n, c) :: fsys else (n', c') :: updateF n c fsys

/-- The observable state of a run: the cache files on disk and the
messages delivered to maildirs so far, tagged with the feed name, in
delivery order. -/
structure St where
  files : Files
  delivered : List (String × Item)

/-- `load_cache` (lines 183-190): a missing file leaves the cache `None`;
a present file is parsed, and a parse failure raises. -/
def load_cache (fsys : Files) (name : String) : Except Unit (Option Cache) :=
  match lookupF fsys name with
  | none => .ok none
  | some (.error e) => .error e
  | some (.ok c) => .ok (some c)

/-- The delivery loop of `download_feed` (lines 325-330): for each new
entry, deliver it (an exception aborts the run), then record its
identifier and date in the in-memory cache. Returns the delivered items,
the updated cache, and the propagating error, if any. -/
def deliverLoop (deliver : Item → Bool) (today : Int) (fname : String) (cache : Cache) :
    List Item → List (String × Item) × Cache × Option RunErr
  | [] => ([], cache, none)
  | item :: rest =>
    if deliver item then
      match item_id item with
      | .error _ => ([(fname, item)], cache, some .idExit)
      | .ok iid =>
        let cache' := dinsert iid (rss_item_date today item) cache
        let r := deliverLoop deliver today fname cache' rest
        ((fname, item) :: r.1, r.2.1, r.2.2)
    else ([], cache, some .deliveryErr)

/-- `download_feed` (lines 288-330): a fetch failure is logged and the
feed is skipped (cache untouched); otherwise the new entries are
extracted and delivered. When there are new entries and the cache is
`None` it is initialised to the empty dict before the delivery loop. -/
def download_feed (fetch : String → Option (List Item × List Char))
    (deliver : Item → Bool) (today : Int) (feed : Feed) (cache : Option Cache) :
    List (String × Item) × Option Cache × Option RunErr :=
  match fetch feed.name with
  | none => ([], cache, none)
  | some (entries, _) =>
    match extract_new_items entries feed.days_to_remember cache today with
    | .error _ => ([], cache, some .idExit)
    | .ok new_entries =>
      if new_entries.isEmpty then ([], cache, none)
      else
        let r := deliverLoop deliver today feed.name (cache.getD []) new_entries
        (r.1, some r.2.1, r.2.2)

/-- `write_cache` (lines 217-229): a `None` cache is not persisted;
otherwise the cache is pruned by `expire` and written by `save_object`,
whose try/except swallows any write failure. -/
def write_cache (saveOk : String → Bool) (today : Int) (feed : Feed)
    (cache : Option Cache) (fsys : Files) : Files :=
  match cache with
  | none => fsys
  | some c =>
    if saveOk feed.name then
      updateF feed.name (.ok (expire c feed.days_to_remember today)) fsys
    else fsys

/-- One iteration of `main`'s feed loop (lines 383-386): `load_cache`,
`download_feed`, `write_cache`, with uncaught exceptions propagating. -/
def processFeed (env : Env) (st : St) (feed : Feed) : St × Option RunErr :=
  match load_cache st.files feed.name with
  | .error _ => (st, some .cacheLoadErr)
  | .ok cache0 =>
    let r := download_feed env.fetchOf env.deliverOk env.today feed cache0
    let st1 : St := { st with delivered := st.delivered ++ r.1 }
    match r.2.2 with
    | some e => (st1, some e)
    | none => ({ st1 with files := write_cache env.saveOk env.today feed r.2.1 st1.files }, none)

/-- `main`'s feed loop: feeds are processed in order and the first
uncaught exception aborts the rest of the run. -/
def runFeeds (env : Env) : List Feed → St → St × Option RunErr
  | [], st => (st, none)
  | f :: fs, st =>
    match processFeed env st f with
    | (st', some e) => (st', some e)
    | (st', none) => runFeeds env fs st'

/-- The canonical identifier of an item as a total function: on items on
which `item_id` succeeds it agrees with `item_id`. -/
def canonSrc (item : Item) : Ident :=
  canonId ((item.id).getD ((item.link).getD []))

/-- The selection predicate of `extract_new_items`: the canonical
identifier is not in the cache, and the item's day-granularity date is
strictly less than `dtr` days before `today`. -/
def newPred (cache : Option Cache) (dtr today : Int) (item : Item) : Bool :=
  !cacheContains cache (canonSrc item) && decide (today - rss_item_date today item < dtr)

/-- The cache effect of `download_feed` (lines 321-330) when every
delivery succeeds: each selected item's canonical identifier is recorded
with its date, in order; an empty selection leaves the cache untouched
(in particular a `None` cache stays `None`). -/
def recordNew (today : Int) (cache : Option Cache) (sel : List Item) : Option Cache :=
  if sel.isEmpty then cache
  else some (sel.foldl
    (fun m it => dinsert (canonSrc it) (rss_item_date today it) m) (cache.getD []))

/-- The environment in which every file write for feed `n` fails (and is
swallowed by `save_object`'s try/except). -/
def failSaveAt (env : Env) (n : String) : Env :=
  { env with saveOk := fun m => if m = n then false else env.saveOk m }

-- Concrete fixtures used by witnesses and counterexamples.

def itemA : Item := ⟨some "a".data, none, none, "ta".data, none, none⟩

def itemB : Item := ⟨some "b".data, none, none, "tb".data, none, none⟩

def itemC : Item := ⟨some "c".data, none, none, "tc".data, none, none⟩

def itemG : Item := ⟨some "g".data, none, none, "tg".data, none, none⟩

def itemStale : Item := ⟨some "s".data, none, none, "ts".data, some 0, none⟩

def itemNoId : Item := ⟨none, none, some "d".data, "t".data, none, none⟩

def itemDup₁ : Item := ⟨some "d".data, none, none, "t1".data, some 95, none⟩

def itemDup₂ : Item := ⟨some "d".data, none, none, "t2".data, some 96, none⟩

def item7 : Item :=
  ⟨some "123".data, some "http://y".data, some "<a href=\"http://x\">hi</a>".data,
    "A&amp;B".data, none, none⟩

def cexItemA : Item := ⟨some "https:http:y".data, none, none, [], none, none⟩

def cexItemB : Item := ⟨some "http:http:y".data, none, none, [], none, none⟩

def schemeItem₁ : Item := ⟨some "https://u/p".data, none, none, [], none, none⟩

def schemeItem₂ : Item := ⟨some "http://u/p".data, none, none, [], none, none⟩

def feedF : Feed := ⟨"f", 14, false⟩

def feedG : Feed := ⟨"g", 14, false⟩

def stEmpty : St := ⟨[], []⟩

def envC1 : Env :=
  { today := 100,
    fetchOf := fun n => if n = "f" then some ([itemA, itemB, itemC], "T".data) else none,
    deliverOk := fun it => !decide (it = itemB),
    saveOk := fun _ => true }

def envC3 : Env :=
  { today := 100,
    fetchOf := fun n =>
      if n = "g" then some ([itemG], "TG".data)
      else if n = "f" then some ([itemA], "TF".data)
      else none,
    deliverOk := fun _ => true,
    saveOk := fun _ => true }

def stC3 : St := ⟨[("f", .error ())], []⟩

def envC8 : Env :=
  { today := 100,
    fetchOf := fun n => if n = "f" then some ([itemNoId], "T".data) else none,
    deliverOk := fun _ => true,
    saveOk := fun _ => true }

def envC9 : Env :=
  { today := 100,
    fetchOf := fun n => if n = "f" then some ([itemDup₁, itemDup₂], "T".data) else none,
    deliverOk := fun _ => true,
    saveOk := fun _ => true }

def envC10 : Env :=
  { today := 100,
    fetchOf := fun n =>
      if n = "f" then some ([itemA], "TF".data)
      else if n = "g" then some ([itemG], "TG".data)
      else none,
    deliverOk := fun _ => true,
    saveOk := fun _ => true }

theorem item_id_ok_canonSrc {item : Item} {k : Ident} (h : item_id item = .ok k) :
    canonSrc item = k := by
  rcases item with ⟨id, link, d, t, p, u⟩
  cases id <;> cases link <;> simp_all [item_id, canonSrc]

theorem item_id_error_iff {item : Item} :
    item_id item = .error () ↔ (item.id = none ∧ item.link = none) := by
  rcases item with ⟨id, link, d, t, p, u⟩
  cases id <;> cases link <;> simp [item_id]

theorem extract_go_total (dtr : Int) (c₁ c₂ : Option Cache) (today : Int) :
    ∀ (l r : List Item), extract_go dtr c₁ today l = .ok r →
      extract_go dtr c₂ today l = .ok (l.filter (newPred c₂ dtr today))
  | [], r, _ => by simp [extract_go]
  | item :: rest, r, h => by
    rw [extract_go] at h
    cases hid : item_id item with
    | error e => rw [hid] at h; exact absurd h (by simp)
    | ok new_id =>
      rw [hid] at h
      cases hrec : extract_go dtr c₁ today rest with
      | error e => rw [hrec] at h; exact absurd h (by simp)
      | ok tail =>
        have ih := extract_go_total dtr c₁ c₂ today rest tail hrec
        have hcan : canonSrc item = new_id := item_id_ok_canonSrc hid
        rw [extract_go, hid, ih, List.filter_cons]
        by_cases hc : cacheContains c₂ new_id = true
        · simp [newPred, hcan, hc]
        · simp only [Bool.not_eq_true] at hc
          by_cases hd : today - rss_item_date today item < dtr
          · simp [newPred, hcan, hc, hd]
          · simp [newPred, hcan, hc, hd]

theorem extract_go_ok {dtr : Int} {cache : Option Cache} {today : Int}
    {l r : List Item} (h : extract_go dtr cache today l = .ok r) :
    r = l.filter (newPred cache dtr today) := by
  have h₂ := extract_go_total dtr cache cache today l r h
  rw [h] at h₂
  exact Except.ok.inj h₂

theorem extract_ok {l : List Item} {dtr : Int} {cache : Option Cache}
    {today : Int} {r : List Item} (h : extract_new_items l dtr cache today = .ok r) :
    r = l.filter (newPred cache dtr today) := by
  rw [extract_new_items] at h
  by_cases he : l.isEmpty
  · rw [if_pos he] at h
    rw [List.isEmpty_iff] at he
    subst he
    simpa using (Except.ok.inj h).symm
  · rw [if_neg he] at h
    exact extract_go_ok h

theorem extract_total {l : List Item} {dtr : Int} {c₁ : Option Cache} {today : Int}
    {r : List Item} (c₂ : Option Cache) (h : extract_new_items l dtr c₁ today = .ok r) :
    extract_new_items l dtr c₂ today = .ok (l.filter (newPred c₂ dtr today)) := by
  rw [extract_new_items] at h ⊢
  by_cases he : l.isEmpty
  · rw [if_pos he]
    rw [List.isEmpty_iff] at he
    subst he
    simp
  · rw [if_neg he] at h ⊢
    exact extract_go_total dtr c₁ c₂ today l r h

theorem hasKey_cons (k k' : Ident) (v : Int) (m : Cache) :
    hasKey ((k', v) :: m) k = (decide (k' = k) || hasKey m k) := by
  simp [hasKey]

theorem hasKey_dinsert_self (k : Ident) (v : Int) :
    ∀ m : Cache, hasKey (dinsert k v m) k = true
  | [] => by simp [dinsert, hasKey]
  | (k', v') :: m => by
    by_cases h : k' = k
    · simp [dinsert, h, hasKey]
    · simp only [dinsert, if_neg h]
      rw [hasKey_cons, hasKey_dinsert_self k v m, Bool.or_true]

theorem hasKey_dinsert_mono {m : Cache} {k' : Ident} (k : Ident) (v : Int)
    (h : hasKey m k' = true) : hasKey (dinsert k v m) k' = true := by
  induction m with
  | nil => simp [hasKey] at h
  | cons p m ih =>
    obtain ⟨k₀, v₀⟩ := p
    rw [hasKey_cons] at h
    by_cases hk : k₀ = k
    · simp only [dinsert, if_pos hk, hasKey_cons]
      rcases Bool.or_eq_true_iff.mp h with h₁ | h₁
      · subst hk
        simp_all
      · simp [h₁]
    · simp only [dinsert, if_neg hk, hasKey_cons]
      rcases Bool.or_eq_true_iff.mp h with h₁ | h₁
      · simp [h₁]
      · simp [ih h₁]

theorem lookupC_dinsert_self (k : Ident) (v : Int) :
    ∀ m : Cache, lookupC (dinsert k v m) k = some v
  | [] => by simp [dinsert, lookupC]
  | (k', v') :: m => by
    by_cases h : k' = k
    · simp [dinsert, h, lookupC]
    · simp only [dinsert, if_neg h, lookupC, if_neg h]
      exact lookupC_dinsert_self k v m

theorem dinsert_eq_append {m : Cache} {k : Ident} (v : Int)
    (h : hasKey m k = false) : dinsert k v m = m ++ [(k, v)] := by
  induction m with
  | nil => simp [dinsert]
  | cons p m ih =>
    obtain ⟨k₀, v₀⟩ := p
    rw [hasKey_cons, Bool.or_eq_false_iff] at h
    have hk : ¬k₀ = k := by simpa using h.1
    simp only [dinsert, if_neg hk, List.cons_append, List.cons.injEq, true_and]
    exact ih h.2

theorem hasKey_append (m₁ m₂ : Cache) (k : Ident) :
    hasKey (m₁ ++ m₂) k = (hasKey m₁ k || hasKey m₂ k) := by
  simp [hasKey, List.any_append]

theorem expire_fold (dtr today : Int) :
    ∀ (l acc : Cache), (∀ p ∈ l, hasKey acc p.1 = false) → (l.map Prod.fst).Nodup →
      l.foldl (fun res ld => if today - ld.2 < dtr then dinsert ld.1 ld.2 res else res) acc =
        acc ++ l.filter (fun ld => decide (today - ld.2 < dtr))
  | [], acc, _, _ => by simp
  | (k, d) :: rest, acc, hacc, hnd => by
    simp only [List.map_cons, List.nodup_cons, List.mem_map] at hnd
    have hrestk : ∀ p ∈ rest, ¬p.1 = k := by
      intro p hp hpk
      exact hnd.1 ⟨p, hp, hpk⟩
    rw [List.foldl_cons, List.filter_cons]
    by_cases hd : today - d < dtr
    · simp only [if_pos hd]
      have hkey : hasKey acc k = false := hacc (k, d) (List.mem_cons_self _ _)
      rw [dinsert_eq_append d hkey]
      have hacc' : ∀ p ∈ rest, hasKey (acc ++ [(k, d)]) p.1 = false := by
        intro p hp
        have h₁ : hasKey acc p.1 = false := hacc p (List.mem_cons_of_mem _ hp)
        have h₂ : ¬k = p.1 := fun h => hrestk p hp h.symm
        rw [hasKey_append, hasKey_cons, h₁]
        simp [hasKey, h₂]
      rw [expire_fold dtr today rest (acc ++ [(k, d)]) hacc' hnd.2]
      simp [hd, List.append_assoc]
    · simp only [if_neg hd]
      rw [expire_fold dtr today rest acc
        (fun p hp => hacc p (List.mem_cons_of_mem _ hp)) hnd.2]
      simp [hd]

theorem item_id_eq_srcOf (item : Item) :
    item_id item = (match srcOf item with
      | some s => .ok (canonId s)
      | none => .error ()) := by
  rcases item with ⟨id, link, d, t, p, u⟩
  cases id <;> cases link <;> rfl

theorem isPrefixOf_self_append (t : List Char) :
    ∀ p : List Char, p.isPrefixOf (p ++ t) = true
  | [] => by simp [List.isPrefixOf]
  | c :: p => by simp [List.isPrefixOf, isPrefixOf_self_append t p]

theorem stripPfx_append (p t : List Char) : stripPfx p (p ++ t) = t := by
  rw [stripPfx, if_pos (isPrefixOf_self_append t p), List.drop_left]

theorem stripPfx_of_miss {p s : List Char} (h : p.isPrefixOf s = false) :
    stripPfx p s = s := by
  simp [stripPfx, h]

theorem https_not_prefix_of_http (rest : List Char) :
    httpsPfx.isPrefixOf (httpPfx ++ rest) = false := rfl

theorem extract_go_error (dtr : Int) (c : Option Cache) (today : Int) (it : Item)
    (hid : item_id it = .error ()) :
    ∀ l : List Item, it ∈ l → extract_go dtr c today l = .error ()
  | [], h => absurd h (List.not_mem_nil it)
  | x :: rest, h => by
    rw [extract_go]
    rcases List.mem_cons.mp h with h₁ | h₁
    · subst h₁
      rw [hid]
    · cases hx : item_id x with
      | error e => cases e; rfl
      | ok id₀ => rw [extract_go_error dtr c today it hid rest h₁]

theorem recordFold_preserves (today : Int) (k : Ident) :
    ∀ (l : List Item) (m : Cache), hasKey m k = true →
      hasKey (l.foldl (fun c it => dinsert (canonSrc it) (rss_item_date today it) c) m) k = true
  | [], m, h => h
  | it :: rest, m, h => by
    rw [List.foldl_cons]
    exact recordFold_preserves today k rest _ (hasKey_dinsert_mono _ _ h)

theorem recordFold_mem (today : Int) (it : Item) :
    ∀ (l : List Item) (m : Cache), it ∈ l →
      hasKey (l.foldl (fun c x => dinsert (canonSrc x) (rss_item_date today x) c) m)
        (canonSrc it) = true
  | [], m, h => absurd h (List.not_mem_nil it)
  | x :: rest, m, h => by
    rw [List.foldl_cons]
    rcases List.mem_cons.mp h with h₁ | h₁
    · subst h₁
      exact recordFold_preserves today (canonSrc it) rest _ (hasKey_dinsert_self _ _ _)
    · exact recordFold_mem today it rest _ h₁

theorem lookupF_updateF_self (n : String) (c : Except Unit Cache) :
    ∀ fsys : Files, lookupF (updateF n c fsys) n = some c
  | [] => by simp [updateF, lookupF]
  | (n', c') :: fsys => by
    by_cases h : n' = n
    · simp [updateF, h, lookupF]
    · simp only [updateF, if_neg h, lookupF, if_neg h]
      exact lookupF_updateF_self n c fsys

theorem lookupF_updateF_ne {n m : String} (c : Except Unit Cache) (h : ¬n = m) :
    ∀ fsys : Files, lookupF (updateF n c fsys) m = lookupF fsys m
  | [] => by simp [updateF, lookupF, h]
  | (n', c') :: fsys => by
    by_cases hn : n' = n
    · subst hn
      simp [updateF, lookupF, h]
    · simp only [updateF, if_neg hn, lookupF]
      by_cases hm : n' = m
      · simp [hm]
      · simp only [if_neg hm]
        exact lookupF_updateF_ne c h fsys

theorem write_cache_lookup_ne (s : String → Bool) (today : Int) (f : Feed)
    (c : Option Cache) (fsys : Files) (m : String) (h : ¬f.name = m) :
    lookupF (write_cache s today f c fsys) m = lookupF fsys m := by
  cases c with
  | none => rfl
  | some c₀ =>
    rw [write_cache]
    by_cases hs : s f.name
    · rw [if_pos hs]
      exact lookupF_updateF_ne _ h fsys
    · rw [if_neg hs]

theorem write_cache_lookup_congr (s₁ s₂ : String → Bool) (today : Int) (f : Feed)
    (c : Option Cache) (fs₁ fs₂ : Files) (n : String)
    (hs : s₂ f.name = s₁ f.name) (hn : lookupF fs₂ n = lookupF fs₁ n) :
    lookupF (write_cache s₂ today f c fs₂) n = lookupF (write_cache s₁ today f c fs₁) n := by
  cases c with
  | none => exact hn
  | some c₀ =>
    rw [write_cache, write_cache, hs]
    by_cases hb : s₁ f.name
    · rw [if_pos hb, if_pos hb]
      by_cases hfn : f.name = n
      · subst hfn
        rw [lookupF_updateF_self, lookupF_updateF_self]
      · rw [lookupF_updateF_ne _ hfn, lookupF_updateF_ne _ hfn]
        exact hn
    · rw [if_neg hb, if_neg hb]
      exact hn

theorem processFeed_files_frame (env : Env) (st : St) (f : Feed) (m : String)
    (h : ¬f.name = m) :
    lookupF (processFeed env st f).1.files m = lookupF st.files m := by
  cases hl : load_cache st.files f.name with
  | error e => simp [processFeed, hl]
  | ok c₀ =>
    cases he : (download_feed env.fetchOf env.deliverOk env.today f c₀).2.2 with
    | some e => simp [processFeed, hl, he]
    | none => simp [processFeed, hl, he, write_cache_lookup_ne _ _ _ _ _ m h]

theorem runFeeds_files_frame (env : Env) :
    ∀ (fs : List Feed) (st : St) (m : String), (∀ g ∈ fs, ¬g.name = m) →
      lookupF (runFeeds env fs st).1.files m = lookupF st.files m
  | [], st, m, _ => rfl
  | f :: fs, st, m, h => by
    rw [runFeeds]
    have hf := processFeed_files_frame env st f m (h f (List.mem_cons_self _ _))
    cases hp : processFeed env st f with
    | mk st' e =>
      rw [hp] at hf
      cases e with
      | none =>
        simp only []
        rw [runFeeds_files_frame env fs st' m
          (fun g hg => h g (List.mem_cons_of_mem _ hg))]
        exact hf
      | some e₀ => exact hf
example : item_id ⟨some "https://a".data, none, none, [], none, none⟩ = .ok "//a".data := rfl

example : item_id ⟨none, some "http://a".data, none, [], none, none⟩ = .ok "//a".data := rfl

example : item_id ⟨none, none, none, [], none, none⟩ = .error () := rfl

example : expire [("a".data, 10), ("b".data, 1)] 5 12 = [("a".data, 10)] := rfl

example :
    extract_new_items [⟨some "x".data, none, none, [], some 3, none⟩] 5 none 12 = .ok [] := rfl

example :
    extract_new_items [⟨some "x".data, none, none, [], some 8, none⟩] 5 none 12 =
      .ok [⟨some "x".data, none, none, [], some 8, none⟩] := rfl

example : htmlUnescape "A&amp;B".data = "A&B".data := rfl

example : stripTags "<a href=\"http://x\">hi</a>".data = "hi".data := rfl

example :
    update_maildir_msg false ⟨some "123".data, some "http://y".data,
      some "<a href=\"http://x\">hi</a>".data, "A&amp;B".data, none, none⟩ =
      ⟨"A&B".data, "hi\nhttp://y".data⟩ := rfl

example :
    runFeeds
      { today := 100,
        fetchOf := fun n => if n = "f" then some ([⟨some "a".data, none, none, [], none, none⟩], "T".data) else none,
        deliverOk := fun _ => true,
        saveOk := fun _ => true }
      [{ name := "f", days_to_remember := 14, links := false }]
      { files := [], delivered := [] } =
      ({ files := [("f", .ok [("a".data, 100)])],
         delivered := [("f", ⟨some "a".data, none, none, [], none, none⟩)] }, none) := rfl

theorem write_cache_saveFalse {s : String → Bool} {f : Feed} (today : Int)
    (c : Option Cache) (fsys : Files) (h : s f.name = false) :
    write_cache s today f c fsys = fsys := by
  cases c with
  | none => rfl
  | some c₀ => simp [write_cache, h]

theorem processFeed_err (env : Env) {st : St} {f : Feed} {c₀ : Option Cache} {e : RunErr}
    (h : load_cache st.files f.name = .ok c₀)
    (he : (download_feed env.fetchOf env.deliverOk env.today f c₀).2.2 = some e) :
    processFeed env st f =
      ({ st with delivered := st.delivered ++
          (download_feed env.fetchOf env.deliverOk env.today f c₀).1 }, some e) := by
  simp [processFeed, h, he]

theorem processFeed_noerr (env : Env) {st : St} {f : Feed} {c₀ : Option Cache}
    (h : load_cache st.files f.name = .ok c₀)
    (he : (download_feed env.fetchOf env.deliverOk env.today f c₀).2.2 = none) :
    processFeed env st f =
      ({ files := write_cache env.saveOk env.today f
            (download_feed env.fetchOf env.deliverOk env.today f c₀).2.1 st.files,
         delivered := st.delivered ++
            (download_feed env.fetchOf env.deliverOk env.today f c₀).1 }, none) := by
  simp [processFeed, h, he]

theorem runFeeds_saveOk_congr (env : Env) (s : String → Bool) :
    ∀ (fs : List Feed) (st₁ st₂ : St),
      st₂.delivered = st₁.delivered →
      (∀ n : String, (∃ g ∈ fs, g.name = n) → lookupF st₂.files n = lookupF st₁.files n) →
      (∀ n : String, (∃ g ∈ fs, g.name = n) → s n = env.saveOk n) →
      (runFeeds { env with saveOk := s } fs st₂).2 = (runFeeds env fs st₁).2 ∧
      (runFeeds { env with saveOk := s } fs st₂).1.delivered =
        (runFeeds env fs st₁).1.delivered ∧
      (∀ n : String, (∃ g ∈ fs, g.name = n) →
        lookupF (runFeeds { env with saveOk := s } fs st₂).1.files n =
          lookupF (runFeeds env fs st₁).1.files n)
  | [], st₁, st₂, hdel, hfiles, _ => ⟨rfl, hdel, fun n hn => hfiles n hn⟩
  | f :: fs, st₁, st₂, hdel, hfiles, hsave => by
    have hlf : lookupF st₂.files f.name = lookupF st₁.files f.name :=
      hfiles f.name ⟨f, List.mem_cons_self _ _, rfl⟩
    have hload : load_cache st₂.files f.name = load_cache st₁.files f.name := by
      rw [load_cache, load_cache, hlf]
    cases hl : load_cache st₁.files f.name with
    | error e =>
      have hl₂ : load_cache st₂.files f.name = .error e := by rw [hload, hl]
      have hp₁ : processFeed env st₁ f = (st₁, some .cacheLoadErr) := by
        simp [processFeed, hl]
      have hp₂ : processFeed { env with saveOk := s } st₂ f = (st₂, some .cacheLoadErr) := by
        simp [processFeed, hl₂]
      have hr₁ : runFeeds env (f :: fs) st₁ = (st₁, some .cacheLoadErr) := by
        rw [runFeeds, hp₁]
      have hr₂ : runFeeds { env with saveOk := s } (f :: fs) st₂ = (st₂, some .cacheLoadErr) := by
        rw [runFeeds, hp₂]
      rw [hr₁, hr₂]
      exact ⟨rfl, hdel, fun n hn => hfiles n hn⟩
    | ok c₀ =>
      have hl₂ : load_cache st₂.files f.name = .ok c₀ := by rw [hload, hl]
      cases he : (download_feed env.fetchOf env.deliverOk env.today f c₀).2.2 with
      | some e =>
        have hp₁ := processFeed_err env hl he
        have hp₂ := processFeed_err { env with saveOk := s } hl₂ he
        have hr₁ : runFeeds env (f :: fs) st₁ =
            ({ st₁ with delivered := st₁.delivered ++
                (download_feed env.fetchOf env.deliverOk env.today f c₀).1 }, some e) := by
          rw [runFeeds, hp₁]
        have hr₂ : runFeeds { env with saveOk := s } (f :: fs) st₂ =
            ({ st₂ with delivered := st₂.delivered ++
                (download_feed env.fetchOf env.deliverOk env.today f c₀).1 }, some e) := by
          rw [runFeeds, hp₂]
        rw [hr₁, hr₂]
        exact ⟨rfl, by rw [hdel], fun n hn => hfiles n hn⟩
      | none =>
        have hp₁ := processFeed_noerr env hl he
        have hp₂ := processFeed_noerr { env with saveOk := s } hl₂ he
        have hsf : s f.name = env.saveOk f.name :=
          hsave f.name ⟨f, List.mem_cons_self _ _, rfl⟩
        have hfiles₂ : ∀ n : String, (∃ g ∈ f :: fs, g.name = n) →
            lookupF (write_cache s env.today f
                (download_feed env.fetchOf env.deliverOk env.today f c₀).2.1 st₂.files) n =
              lookupF (write_cache env.saveOk env.today f
                (download_feed env.fetchOf env.deliverOk env.today f c₀).2.1 st₁.files) n :=
          fun n hn =>
            write_cache_lookup_congr env.saveOk s env.today f _ st₁.files st₂.files n hsf
              (hfiles n hn)
        have ih := runFeeds_saveOk_congr env s fs
          ⟨write_cache env.saveOk env.today f
              (download_feed env.fetchOf env.deliverOk env.today f c₀).2.1 st₁.files,
            st₁.delivered ++ (download_feed env.fetchOf env.deliverOk env.today f c₀).1⟩
          ⟨write_cache s env.today f
              (download_feed env.fetchOf env.deliverOk env.today f c₀).2.1 st₂.files,
            st₂.delivered ++ (download_feed env.fetchOf env.deliverOk env.today f c₀).1⟩
          (by simpa using hdel)
          (fun n hn => hfiles₂ n (by
            obtain ⟨g, hg, hgn⟩ := hn
            exact ⟨g, List.mem_cons_of_mem _ hg, hgn⟩))
          (fun n hn => hsave n (by
            obtain ⟨g, hg, hgn⟩ := hn
            exact ⟨g, List.mem_cons_of_mem _ hg, hgn⟩))
        obtain ⟨ih₁, ih₂, ih₃⟩ := ih
        have hr₁ : runFeeds env (f :: fs) st₁ =
            runFeeds env fs
              ⟨write_cache env.saveOk env.today f
                  (download_feed env.fetchOf env.deliverOk env.today f c₀).2.1 st₁.files,
                st₁.delivered ++ (download_feed env.fetchOf env.deliverOk env.today f c₀).1⟩ := by
          rw [runFeeds, hp₁]
        have hr₂ : runFeeds { env with saveOk := s } (f :: fs) st₂ =
            runFeeds { env with saveOk := s } fs
              ⟨write_cache s env.today f
                  (download_feed env.fetchOf env.deliverOk env.today f c₀).2.1 st₂.files,
                st₂.delivered ++ (download_feed env.fetchOf env.deliverOk env.today f c₀).1⟩ := by
          rw [runFeeds, hp₂]
        rw [hr₁, hr₂]
        refine ⟨ih₁, ih₂, ?_⟩
        intro n hn
        by_cases hfs : ∃ g ∈ fs, g.name = n
        · exact ih₃ n hfs
        · push_neg at hfs
          rw [runFeeds_files_frame { env with saveOk := s } fs _ n hfs,
            runFeeds_files_frame env fs _ n hfs]
          exact hfiles₂ n hn

theorem cacheContains_recordNew_of_mem (today : Int) (cache : Option Cache)
    {sel : List Item} {it : Item} (h : it ∈ sel) :
    cacheContains (recordNew today cache sel) (canonSrc it) = true := by
  rw [recordNew]
  have hne : sel.isEmpty = false := by
    cases sel with
    | nil => simp at h
    | cons a l => rfl
  rw [if_neg (by simp [hne])]
  exact recordFold_mem today it sel _ h

theorem cacheContains_recordNew_mono (today : Int) (cache : Option Cache)
    (sel : List Item) {k : Ident} (h : cacheContains cache k = true) :
    cacheContains (recordNew today cache sel) k = true := by
  rw [recordNew]
  by_cases he : sel.isEmpty
  · rw [if_pos he]
    exact h
  · rw [if_neg he]
    cases cache with
    | none => simp [cacheContains] at h
    | some m => exact recordFold_preserves today k sel m h

/-- C2: on a successful pass, `extract_new_items` selects an item iff its
canonical identifier is absent from the cache and its day-granularity
date (today when both timestamps are absent) is strictly less than
`retentionDays` days before `today`; in particular an uncached item whose
date is `retentionDays` or more before today is never selected. -/
theorem extract_new_items_spec (items : List Item) (cache : Option Cache)
    (dtr today : Int) (r : List Item)
    (h : extract_new_items items dtr cache today = .ok r) :
    (∀ item : Item, item ∈ r ↔
      (item ∈ items ∧ cacheContains cache (canonSrc item) = false ∧
        today - rss_item_date today item < dtr)) ∧
    (∀ item : Item, item ∈ items → cacheContains cache (canonSrc item) = false →
      dtr ≤ today - rss_item_date today item → item ∉ r) := by
  have hr := extract_ok h
  subst hr
  constructor
  · intro item
    rw [List.mem_filter]
    simp [newPred]
  · intro item hmem hc hd hcontra
    rw [List.mem_filter] at hcontra
    have hp := hcontra.2
    simp [newPred, hc] at hp
    omega

theorem extract_new_items_spec_witness :
    (∀ item : Item, item ∈ [itemA] ↔
      (item ∈ [itemA, itemStale] ∧ cacheContains none (canonSrc item) = false ∧
        (100 : Int) - rss_item_date 100 item < 14)) ∧
    (∀ item : Item, item ∈ [itemA, itemStale] →
      cacheContains none (canonSrc item) = false →
      (14 : Int) ≤ 100 - rss_item_date 100 item → item ∉ [itemA]) :=
  extract_new_items_spec [itemA, itemStale] none 14 100 [itemA] rfl

/-- C4: `expire` returns exactly the entries whose recorded date `D`
satisfies `today - D < retentionDays`, with identifiers, dates and order
unchanged; every entry at or past the window is dropped. The hypothesis
is the cache invariant: identifiers are unique within a feed's cache. -/
theorem expire_retains_within_window (cache : Cache) (dtr today : Int)
    (h : (cache.map Prod.fst).Nodup) :
    expire cache dtr today = cache.filter (fun ld => decide (today - ld.2 < dtr)) ∧
    ∀ l d, ((l, d) ∈ expire cache dtr today ↔ ((l, d) ∈ cache ∧ today - d < dtr)) := by
  have he : expire cache dtr today =
      cache.filter (fun ld => decide (today - ld.2 < dtr)) := by
    have hf := expire_fold dtr today cache [] (fun p _ => rfl) h
    simpa [expire] using hf
  refine ⟨he, fun l d => ?_⟩
  rw [he, List.mem_filter]
  simp

theorem expire_retains_within_window_witness :
    (expire [("a".data, 10), ("b".data, 1)] 5 12 =
      [("a".data, 10), ("b".data, 1)].filter (fun ld => decide ((12 : Int) - ld.2 < 5))) ∧
    ∀ l d, ((l, d) ∈ expire [("a".data, 10), ("b".data, 1)] 5 12 ↔
      ((l, d) ∈ [("a".data, 10), ("b".data, 1)] ∧ (12 : Int) - d < 5)) :=
  expire_retains_within_window [("a".data, 10), ("b".data, 1)] 5 12 (by decide)

/-- C5 (amended): two items whose identifier sources are `https:` and
`http:` followed by the same remainder get the same identifier, namely
the unaltered remainder, provided the remainder does not itself begin
with `http:` (which holds for every URL, where the scheme is followed by
`//`); without that proviso the sequential `removeprefix` calls strip a
second prefix from the `https:` variant. -/
theorem item_id_scheme_invariant (rest : List Char) (i₁ i₂ : Item)
    (h₁ : srcOf i₁ = some (httpsPfx ++ rest))
    (h₂ : srcOf i₂ = some (httpPfx ++ rest))
    (hr : httpPfx.isPrefixOf rest = false) :
    item_id i₁ = .ok rest ∧ item_id i₂ = .ok rest := by
  constructor
  · simp only [item_id_eq_srcOf, h₁]
    rw [canonId, stripPfx_append, stripPfx_of_miss hr]
  · simp only [item_id_eq_srcOf, h₂]
    rw [canonId, stripPfx_of_miss (https_not_prefix_of_http rest), stripPfx_append]

theorem item_id_scheme_invariant_witness :
    item_id schemeItem₁ = .ok "//u/p".data ∧ item_id schemeItem₂ = .ok "//u/p".data :=
  item_id_scheme_invariant "//u/p".data schemeItem₁ schemeItem₂ rfl rfl rfl

/-- C5 (counterexample): the identifier sources `https:http:y` and
`http:http:y` differ only in the leading `https:`/`http:` prefix, yet
`item_id` maps them to different identifiers (`y` versus `http:y`), and
the remainder of the first is altered. -/
theorem item_id_scheme_cex :
    srcOf cexItemA = some (httpsPfx ++ "http:y".data) ∧
    srcOf cexItemB = some (httpPfx ++ "http:y".data) ∧
    item_id cexItemA = .ok "y".data ∧
    item_id cexItemB = .ok "http:y".data ∧
    "y".data ≠ "http:y".data :=
  ⟨rfl, rfl, rfl, rfl, by decide⟩

/-- C6: inserting the identifiers (and dates) of the items selected on a
first pass into the cache, as `download_feed` does after delivery, makes
a second pass of `extract_new_items` over the same batch with the same
`today` select nothing. -/
theorem dedup_idempotent_after_persist (items : List Item) (cache : Option Cache)
    (dtr today : Int) (r : List Item)
    (h : extract_new_items items dtr cache today = .ok r) :
    extract_new_items items dtr (recordNew today cache r) today = .ok [] := by
  have h₂ := extract_total (recordNew today cache r) h
  rw [h₂]
  have hfil : items.filter (newPred (recordNew today cache r) dtr today) = [] := by
    rw [List.filter_eq_nil_iff]
    intro it hit hcontra
    rw [newPred, Bool.and_eq_true] at hcontra
    obtain ⟨hnc, hdt⟩ := hcontra
    rw [Bool.not_eq_true'] at hnc
    cases hcc : cacheContains cache (canonSrc it) with
    | true =>
      have hce := cacheContains_recordNew_mono today cache r hcc
      rw [hnc] at hce
      exact Bool.false_ne_true hce
    | false =>
      have hmem : it ∈ r := by
        rw [extract_ok h, List.mem_filter]
        exact ⟨hit, by rw [newPred, Bool.and_eq_true]; exact ⟨by rw [hcc]; rfl, hdt⟩⟩
      have hce := cacheContains_recordNew_of_mem today cache hmem
      rw [hnc] at hce
      exact Bool.false_ne_true hce
  rw [hfil]

theorem dedup_idempotent_after_persist_witness :
    extract_new_items [itemA, itemStale] 14 (recordNew 100 none [itemA]) 100 = .ok [] :=
  dedup_idempotent_after_persist [itemA, itemStale] none 14 100 [itemA] rfl

/-- C7: for the item with id `123`, title `A&amp;B`, description
`<a href="http://x">hi</a>` and link `http://y`, built with links
suppressed, the message body is `hi` followed by a newline and the
trailing link line `http://y`, and the subject is the decoded `A&B`. -/
theorem message_builder_concrete :
    update_maildir_msg false item7 =
      { subject := "A&B".data, body := "hi\nhttp://y".data } := rfl

theorem newPred_contains_false {c : Option Cache} {dtr today : Int} {it : Item} {k : Ident}
    (hk : item_id it = .ok k) (h : newPred c dtr today it = true) :
    cacheContains c k = false := by
  rw [newPred, Bool.and_eq_true] at h
  have h₁ := h.1
  rw [item_id_ok_canonSrc hk] at h₁
  rwa [Bool.not_eq_true'] at h₁

/-- C8: an item with neither an id nor a link makes `item_id` fail (the
`sys.exit(20)` path), and when such an item appears among a feed's
fetched entries this is fatal for the whole run: the run aborts with
nothing delivered, nothing written and no later feed processed. -/
theorem missing_id_fatal (item : Item) (env : Env) (st : St) (f : Feed)
    (fs : List Feed) (items : List Item) (title : List Char) (c₀ : Option Cache)
    (h₁ : item.id = none) (h₂ : item.link = none)
    (hfetch : env.fetchOf f.name = some (items, title))
    (hmem : item ∈ items)
    (hload : load_cache st.files f.name = .ok c₀) :
    item_id item = .error () ∧ runFeeds env (f :: fs) st = (st, some .idExit) := by
  have hid : item_id item = .error () := item_id_error_iff.mpr ⟨h₁, h₂⟩
  have hne : items.isEmpty = false := by
    cases items with
    | nil => simp at hmem
    | cons a l => rfl
  have hext : extract_new_items items f.days_to_remember c₀ env.today = .error () := by
    rw [extract_new_items, if_neg (by simp [hne])]
    exact extract_go_error f.days_to_remember c₀ env.today item hid items hmem
  have hdl : download_feed env.fetchOf env.deliverOk env.today f c₀ =
      ([], c₀, some .idExit) := by
    simp [download_feed, hfetch, hext]
  have hp : processFeed env st f = (st, some .idExit) := by
    simp [processFeed, hload, hdl]
  exact ⟨hid, by rw [runFeeds, hp]⟩

theorem missing_id_fatal_witness :
    item_id itemNoId = .error () ∧
    runFeeds envC8 [feedF] stEmpty = (stEmpty, some .idExit) :=
  missing_id_fatal itemNoId envC8 stEmpty feedF [] [itemNoId] "T".data none
    rfl rfl rfl (List.mem_singleton.mpr rfl) rfl

/-- C9: two items of one batch with the same canonical identifier, absent
from the cache and both within the retention window, are both selected
and both delivered in the same pass, and the later item's date
overwrites the earlier one's in the in-memory cache. -/
theorem intra_batch_duplicates_both_delivered (env : Env) (f : Feed)
    (cache : Option Cache) (i₁ i₂ : Item) (k : Ident) (title : List Char)
    (hfetch : env.fetchOf f.name = some ([i₁, i₂], title))
    (hk₁ : item_id i₁ = .ok k) (hk₂ : item_id i₂ = .ok k)
    (hc : cacheContains cache k = false)
    (hd₁ : env.today - rss_item_date env.today i₁ < f.days_to_remember)
    (hd₂ : env.today - rss_item_date env.today i₂ < f.days_to_remember)
    (hdel₁ : env.deliverOk i₁ = true) (hdel₂ : env.deliverOk i₂ = true) :
    extract_new_items [i₁, i₂] f.days_to_remember cache env.today = .ok [i₁, i₂] ∧
    (download_feed env.fetchOf env.deliverOk env.today f cache).1 =
      [(f.name, i₁), (f.name, i₂)] ∧
    (download_feed env.fetchOf env.deliverOk env.today f cache).2.2 = none ∧
    ∃ c : Cache,
      (download_feed env.fetchOf env.deliverOk env.today f cache).2.1 = some c ∧
      lookupC c k = some (rss_item_date env.today i₂) := by
  have hext : extract_new_items [i₁, i₂] f.days_to_remember cache env.today =
      .ok [i₁, i₂] := by
    simp [extract_new_items, extract_go, hk₁, hk₂, hc, hd₁, hd₂]
  have hloop : deliverLoop env.deliverOk env.today f.name (cache.getD []) [i₁, i₂] =
      ([(f.name, i₁), (f.name, i₂)],
        dinsert k (rss_item_date env.today i₂)
          (dinsert k (rss_item_date env.today i₁) (cache.getD [])), none) := by
    simp [deliverLoop, hdel₁, hdel₂, hk₁, hk₂]
  have hdl : download_feed env.fetchOf env.deliverOk env.today f cache =
      ([(f.name, i₁), (f.name, i₂)],
        some (dinsert k (rss_item_date env.today i₂)
          (dinsert k (rss_item_date env.today i₁) (cache.getD []))), none) := by
    simp [download_feed, hfetch, hext, hloop]
  rw [hdl]
  exact ⟨hext, rfl, rfl, _, rfl, lookupC_dinsert_self _ _ _⟩

theorem intra_batch_duplicates_both_delivered_witness :
    extract_new_items [itemDup₁, itemDup₂] feedF.days_to_remember none envC9.today =
      .ok [itemDup₁, itemDup₂] ∧
    (download_feed envC9.fetchOf envC9.deliverOk envC9.today feedF none).1 =
      [("f", itemDup₁), ("f", itemDup₂)] ∧
    (download_feed envC9.fetchOf envC9.deliverOk envC9.today feedF none).2.2 = none ∧
    ∃ c : Cache,
      (download_feed envC9.fetchOf envC9.deliverOk envC9.today feedF none).2.1 = some c ∧
      lookupC c "d".data = some (rss_item_date envC9.today itemDup₂) :=
  intra_batch_duplicates_both_delivered envC9 feedF none itemDup₁ itemDup₂ "d".data
    "T".data rfl rfl rfl rfl (by decide) (by decide) rfl rfl

/-- C1 (amended): when delivery fails on the second of three items
selected as new for a feed, the whole run aborts: only the first item
was delivered, the cache file is never rewritten — so the persisted
cache still contains none of the three identifiers (which were absent
from the loaded cache, having been selected as new) — and neither the
later items of this feed nor any later feed is processed. -/
theorem delivery_failure_aborts_run (env : Env) (st : St) (f : Feed) (fs : List Feed)
    (c₀ : Option Cache) (items : List Item) (title : List Char)
    (i₁ i₂ i₃ : Item) (k₁ k₂ k₃ : Ident)
    (hload : load_cache st.files f.name = .ok c₀)
    (hfetch : env.fetchOf f.name = some (items, title))
    (hext : extract_new_items items f.days_to_remember c₀ env.today = .ok [i₁, i₂, i₃])
    (hk₁ : item_id i₁ = .ok k₁) (hk₂ : item_id i₂ = .ok k₂) (hk₃ : item_id i₃ = .ok k₃)
    (hdel₁ : env.deliverOk i₁ = true) (hdel₂ : env.deliverOk i₂ = false) :
    runFeeds env (f :: fs) st =
      ({ st with delivered := st.delivered ++ [(f.name, i₁)] }, some .deliveryErr) ∧
    cacheContains c₀ k₁ = false ∧ cacheContains c₀ k₂ = false ∧
    cacheContains c₀ k₃ = false := by
  have hloop : deliverLoop env.deliverOk env.today f.name (c₀.getD []) [i₁, i₂, i₃] =
      ([(f.name, i₁)],
        dinsert k₁ (rss_item_date env.today i₁) (c₀.getD []), some .deliveryErr) := by
    simp [deliverLoop, hdel₁, hdel₂, hk₁]
  have hdl : download_feed env.fetchOf env.deliverOk env.today f c₀ =
      ([(f.name, i₁)],
        some (dinsert k₁ (rss_item_date env.today i₁) (c₀.getD [])), some .deliveryErr) := by
    simp [download_feed, hfetch, hext, hloop]
  have hp : processFeed env st f =
      ({ st with delivered := st.delivered ++ [(f.name, i₁)] }, some .deliveryErr) := by
    simp [processFeed, hload, hdl]
  have hfil := extract_ok hext
  have hmem : ∀ i ∈ [i₁, i₂, i₃], newPred c₀ f.days_to_remember env.today i = true := by
    intro i hi
    rw [hfil] at hi
    exact (List.mem_filter.mp hi).2
  refine ⟨by rw [runFeeds, hp], ?_, ?_, ?_⟩
  · exact newPred_contains_false hk₁ (hmem i₁ (by simp))
  · exact newPred_contains_false hk₂ (hmem i₂ (by simp))
  · exact newPred_contains_false hk₃ (hmem i₃ (by simp))

theorem delivery_failure_aborts_run_witness :
    runFeeds envC1 [feedF] stEmpty =
      ({ stEmpty with delivered := stEmpty.delivered ++ [("f", itemA)] },
        some .deliveryErr) ∧
    cacheContains none "a".data = false ∧
    cacheContains none "b".data = false ∧
    cacheContains none "c".data = false :=
  delivery_failure_aborts_run envC1 stEmpty feedF [] none [itemA, itemB, itemC] "T".data
    itemA itemB itemC "a".data "b".data "c".data rfl rfl rfl rfl rfl rfl rfl rfl

/-- C1 (counterexample): a concrete run with three fresh items where the
second fails to deliver: contrary to the claim, the persisted cache for
the feed does not contain the first item's identifier — no cache file is
written at all, because the exception from `update_maildir` propagates
through `main` before `write_cache` runs. -/
theorem delivery_failure_claim_cex :
    extract_new_items [itemA, itemB, itemC] 14 none 100 = .ok [itemA, itemB, itemC] ∧
    envC1.deliverOk itemA = true ∧ envC1.deliverOk itemB = false ∧
    runFeeds envC1 [feedF] stEmpty = (⟨[], [("f", itemA)]⟩, some .deliveryErr) ∧
    lookupF (runFeeds envC1 [feedF] stEmpty).1.files "f" = none :=
  ⟨rfl, rfl, rfl, rfl, rfl⟩

/-- C3 (amended): a cache file that fails to parse is fatal for the whole
run, not just for that feed: the run aborts at that feed with the state
unchanged, and no subsequent feed is fetched, deduplicated, delivered or
persisted. -/
theorem cache_load_error_aborts_run (env : Env) (st : St) (f : Feed) (fs : List Feed)
    (h : lookupF st.files f.name = some (.error ())) :
    runFeeds env (f :: fs) st = (st, some .cacheLoadErr) := by
  have hl : load_cache st.files f.name = .error () := by rw [load_cache, h]
  have hp : processFeed env st f = (st, some .cacheLoadErr) := by
    simp [processFeed, hl]
  rw [runFeeds, hp]

theorem cache_load_error_aborts_run_witness :
    runFeeds envC3 [feedF] stC3 = (stC3, some .cacheLoadErr) :=
  cache_load_error_aborts_run envC3 stC3 feedF [] rfl

/-- C3 (counterexample): with feed `f`'s cache file malformed and feed `g`
perfectly processable (as the solo run in the last conjunct shows), the
two-feed run aborts at `f`: nothing is delivered and `g`'s cache file is
never written, contrary to the claim that `g` is still processed. -/
theorem cache_load_error_claim_cex :
    runFeeds envC3 [feedF, feedG] stC3 = (stC3, some .cacheLoadErr) ∧
    (runFeeds envC3 [feedF, feedG] stC3).1.delivered = [] ∧
    lookupF (runFeeds envC3 [feedF, feedG] stC3).1.files "g" = none ∧
    runFeeds envC3 [feedG] stC3 =
      (⟨[("f", .error ()), ("g", .ok [("g".data, 100)])], [("g", itemG)]⟩, none) :=
  ⟨rfl, rfl, rfl, rfl⟩

/-- C10: a file-system error while writing a feed's cache file is swallowed
by `save_object`'s try/except: making every write for feed `f` fail
raises no error, changes neither the run's outcome nor any delivery,
leaves every subsequent feed's persisted cache exactly as in the
successful-write run, and leaves `f`'s own cache file unwritten (so
entries cached only in memory are redelivered on the next run). -/
theorem save_failure_does_not_abort (env : Env) (f : Feed) (fs : List Feed) (st : St)
    (hn : ∀ g ∈ fs, ¬g.name = f.name) :
    (runFeeds (failSaveAt env f.name) (f :: fs) st).2 = (runFeeds env (f :: fs) st).2 ∧
    (runFeeds (failSaveAt env f.name) (f :: fs) st).1.delivered =
      (runFeeds env (f :: fs) st).1.delivered ∧
    (∀ g ∈ fs,
      lookupF (runFeeds (failSaveAt env f.name) (f :: fs) st).1.files g.name =
        lookupF (runFeeds env (f :: fs) st).1.files g.name) ∧
    lookupF (runFeeds (failSaveAt env f.name) (f :: fs) st).1.files f.name =
      lookupF st.files f.name := by
  cases hl : load_cache st.files f.name with
  | error e =>
    have hp₁ : processFeed env st f = (st, some .cacheLoadErr) := by
      simp [processFeed, hl]
    have hp₂ : processFeed (failSaveAt env f.name) st f = (st, some .cacheLoadErr) := by
      simp [processFeed, hl]
    have hr₁ : runFeeds env (f :: fs) st = (st, some .cacheLoadErr) := by
      rw [runFeeds, hp₁]
    have hr₂ : runFeeds (failSaveAt env f.name) (f :: fs) st = (st, some .cacheLoadErr) := by
      rw [runFeeds, hp₂]
    rw [hr₁, hr₂]
    exact ⟨rfl, rfl, fun g hg => rfl, rfl⟩
  | ok c₀ =>
    cases he : (download_feed env.fetchOf env.deliverOk env.today f c₀).2.2 with
    | some e =>
      have hp₁ := processFeed_err env hl he
      have hp₂ := processFeed_err (failSaveAt env f.name) hl he
      have hr₁ : runFeeds env (f :: fs) st =
          ({ st with delivered := st.delivered ++
              (download_feed env.fetchOf env.deliverOk env.today f c₀).1 }, some e) := by
        rw [runFeeds, hp₁]
      have hr₂ : runFeeds (failSaveAt env f.name) (f :: fs) st =
          ({ st with delivered := st.delivered ++
              (download_feed env.fetchOf env.deliverOk env.today f c₀).1 }, some e) := by
        rw [runFeeds, hp₂]
        rfl
      rw [hr₁, hr₂]
      exact ⟨rfl, rfl, fun g hg => rfl, rfl⟩
    | none =>
      have hp₁ := processFeed_noerr env hl he
      have hp₂ := processFeed_noerr (failSaveAt env f.name) hl he
      have hsf : (failSaveAt env f.name).saveOk f.name = false := by
        simp [failSaveAt]
      rw [write_cache_saveFalse _ _ _ hsf] at hp₂
      have hr₁ : runFeeds env (f :: fs) st =
          runFeeds env fs
            ⟨write_cache env.saveOk env.today f
                (download_feed env.fetchOf env.deliverOk env.today f c₀).2.1 st.files,
              st.delivered ++ (download_feed env.fetchOf env.deliverOk env.today f c₀).1⟩ := by
        rw [runFeeds, hp₁]
      have hr₂ : runFeeds (failSaveAt env f.name) (f :: fs) st =
          runFeeds (failSaveAt env f.name) fs
            ⟨st.files,
              st.delivered ++ (download_feed env.fetchOf env.deliverOk env.today f c₀).1⟩ := by
        rw [runFeeds, hp₂]
        rfl
      rw [hr₁, hr₂]
      have hcongr := runFeeds_saveOk_congr env (failSaveAt env f.name).saveOk fs
        ⟨write_cache env.saveOk env.today f
            (download_feed env.fetchOf env.deliverOk env.today f c₀).2.1 st.files,
          st.delivered ++ (download_feed env.fetchOf env.deliverOk env.today f c₀).1⟩
        ⟨st.files,
          st.delivered ++ (download_feed env.fetchOf env.deliverOk env.today f c₀).1⟩
        rfl
        (fun n hn' => by
          obtain ⟨g, hg, hgn⟩ := hn'
          have hne : ¬f.name = n := by
            rw [← hgn]
            exact fun hh => hn g hg hh.symm
          exact (write_cache_lookup_ne env.saveOk env.today f _ st.files n hne).symm)
        (fun n hn' => by
          obtain ⟨g, hg, hgn⟩ := hn'
          have hne : ¬n = f.name := by
            rw [← hgn]
            exact hn g hg
          simp [failSaveAt, hne])
      obtain ⟨ih₁, ih₂, ih₃⟩ := hcongr
      refine ⟨ih₁, ih₂, fun g hg => ih₃ g.name ⟨g, hg, rfl⟩, ?_⟩
      rw [runFeeds_files_frame (failSaveAt env f.name) fs _ f.name hn]

theorem save_failure_does_not_abort_witness :
    ((runFeeds (failSaveAt envC10 "f") [feedF, feedG] stEmpty).2 =
      (runFeeds envC10 [feedF, feedG] stEmpty).2) ∧
    ((runFeeds (failSaveAt envC10 "f") [feedF, feedG] stEmpty).1.delivered =
      (runFeeds envC10 [feedF, feedG] stEmpty).1.delivered) ∧
    (∀ g ∈ [feedG],
      lookupF (runFeeds (failSaveAt envC10 "f") [feedF, feedG] stEmpty).1.files g.name =
        lookupF (runFeeds envC10 [feedF, feedG] stEmpty).1.files g.name) ∧
    lookupF (runFeeds (failSaveAt envC10 "f") [feedF, feedG] stEmpty).1.files "f" =
      lookupF stEmpty.files "f" :=
  save_failure_does_not_abort envC10 feedF [feedG] stEmpty (by decide)
